import Mathlib

/-!
# Verification of the deterministic chemistry-string utilities

Shallow embedding of the small pure utility functions of the
virtual-reaction-lab repository:

* `parseElementsFromSmiles` — the SMILES element tokenizer
  (`src/components/MoleculeViewer.tsx`);
* `computeFormula` — the Hill-system molecular formula formatter
  (`src/components/MoleculeViewer.tsx`);
* `seededRandom` / the xorshift32 draw step — the seeded PRNG
  (`src/components/MoleculeViewer.tsx`);
* `scoreFromSeed` — the score deriver, present as two textually identical
  copies (`src/components/ReactionSimulator.tsx` and
  `src/components/reaction/SafetyApplicationsPanel.tsx`);
* `estimateReactionTimeMinutes` — the heuristic reaction-time estimator.

JavaScript 32-bit integer bit patterns are modelled as natural numbers
below `2 ^ 32`; JavaScript numbers entering the estimator are modelled as
rationals. JavaScript strings are modelled through their UTF-16 code-unit
sequences (`codeUnits`).
-/

/-! ## UTF-16 code units (JavaScript `charCodeAt`) -/

/-- The UTF-16 code units of a single Unicode scalar value, as
`String.prototype.charCodeAt` enumerates them. -/
def charUnits (c : Char) : List Nat :=
  let v := c.toNat
  if v < 65536 then [v]
  else [55296 + (v - 65536) / 1024, 56320 + (v - 65536) % 1024]

/-- The UTF-16 code-unit sequence of a string, i.e. the values
`s.charCodeAt 0, s.charCodeAt 1, …` seen by the JavaScript hash loops. -/
def codeUnits (s : String) : List Nat :=
  s.data.flatMap charUnits

/-! ## Element tokenizer (`parseElementsFromSmiles`)

The source matches the regex `/Cl|Br|[A-Z][a-z]?/g`: at each position the
alternatives are tried in order (`Cl`, then `Br`, then one ASCII uppercase
letter optionally followed by one ASCII lowercase letter); a position with
no match is skipped. -/

/-- ASCII uppercase letter, the character class `[A-Z]` of the source regex. -/
def isUpperAZ (c : Char) : Bool := 'A' ≤ c && c ≤ 'Z'

/-- ASCII lowercase letter, the character class `[a-z]` of the source regex. -/
def isLowerAZ (c : Char) : Bool := 'a' ≤ c && c ≤ 'z'

/-- Left-to-right non-overlapping scan of `/Cl|Br|[A-Z][a-z]?/g` over the
character list of the input. -/
def scanTokens : List Char → List String
  | [] => []
  | [c] => if isUpperAZ c then [String.mk [c]] else []
  | c1 :: c2 :: rest =>
    if c1 = 'C' ∧ c2 = 'l' then String.mk [c1, c2] :: scanTokens rest
    else if c1 = 'B' ∧ c2 = 'r' then String.mk [c1, c2] :: scanTokens rest
    else if isUpperAZ c1 ∧ isLowerAZ c2 then String.mk [c1, c2] :: scanTokens rest
    else if isUpperAZ c1 then String.mk [c1] :: scanTokens (c2 :: rest)
    else scanTokens (c2 :: rest)

/-- `parseElementsFromSmiles` of `MoleculeViewer.tsx`:
`smiles.match(/Cl|Br|[A-Z][a-z]?/g) || []`. -/
def parseElementsFromSmiles (smiles : String) : List String :=
  scanTokens smiles.data

/-! ## Formula formatter (`computeFormula`)

The source tallies the tokens into a JavaScript record (insertion-ordered
association of keys to counts), pulls `C` (and then `H`) to the front when
present — *deleting* them from the record as it goes — sorts the remaining
keys, and renders each final key from the mutated record. -/

/-- One step of the tally loop `counts[el] = (counts[el] || 0) + 1` on an
insertion-ordered record. -/
def bump (m : List (String × Nat)) (k : String) : List (String × Nat) :=
  if m.any (fun p => p.1 = k) then
    m.map (fun p => if p.1 = k then (p.1, p.2 + 1) else p)
  else m ++ [(k, 1)]

/-- The record built by `for (const el of elements) counts[el] = (counts[el] || 0) + 1`. -/
def tally (elements : List String) : List (String × Nat) :=
  elements.foldl bump []

/-- Record read `m[k]`: `none` models JavaScript `undefined`. -/
def lookupCount (m : List (String × Nat)) (k : String) : Option Nat :=
  (m.find? (fun p => p.1 = k)).map (fun p => p.2)

/-- JavaScript truthiness of `m[k]` (`undefined` and `0` are falsy). -/
def truthy : Option Nat → Bool
  | none => false
  | some n => n ≠ 0

/-- `delete m[k]` on an insertion-ordered record. -/
def deleteKey (m : List (String × Nat)) (k : String) : List (String × Nat) :=
  m.filter (fun p => p.1 ≠ k)

/-- `Object.keys m`, in insertion order. -/
def keysOf (m : List (String × Nat)) : List String :=
  m.map (fun p => p.1)

/-- Lexicographic comparison of character sequences by code point, the
order `Array.prototype.sort()` uses on element symbols. -/
def charListLe : List Char → List Char → Bool
  | [], _ => true
  | _ :: _, [] => false
  | a :: as, b :: bs =>
    if a < b then true
    else if b < a then false
    else charListLe as bs

/-- Lexicographic comparison of strings by code point. -/
def strLe (a b : String) : Bool := charListLe a.data b.data

/-- `Array.prototype.sort()` on element symbols: sort into lexicographic
order. -/
def sortKeys (l : List String) : List String :=
  l.insertionSort (fun a b => strLe a b = true)

/-- The render step `` `${k}${counts[k] > 1 ? counts[k] : ""}` `` — when `k`
was deleted from the record, `counts[k]` is `undefined` and the comparison
`undefined > 1` is false, so no count is emitted. -/
def renderEntry (m : List (String × Nat)) (k : String) : String :=
  k ++ (match lookupCount m k with
        | some n => if 1 < n then toString n else ""
        | none => "")

/-- The record after the two conditional `delete` statements of
`computeFormula`: `C` is deleted when present, and then `H` is deleted when
`C` was present and `H` is present. -/
def postDelete (m : List (String × Nat)) : List (String × Nat) :=
  let hasC := truthy (lookupCount m "C")
  let m1 := if hasC then deleteKey m "C" else m
  if hasC && truthy (lookupCount m1 "H") then deleteKey m1 "H" else m1

/-- The `ordered` array of `computeFormula`: `["C"]`, `["C", "H"]` or `[]`,
depending on which branches pushed. -/
def orderedKeys (m : List (String × Nat)) : List String :=
  let hasC := truthy (lookupCount m "C")
  let m1 := if hasC then deleteKey m "C" else m
  (if hasC then ["C"] else []) ++
    (if hasC && truthy (lookupCount m1 "H") then ["H"] else [])

/-- `computeFormula` of `MoleculeViewer.tsx`: tally, pull `C`/`H` to the
front (deleting them from the record), sort the remaining keys, and render
every final key from the mutated record. -/
def computeFormula (elements : List String) : String :=
  if elements.isEmpty then "" else
  let counts := tally elements
  let counts2 := postDelete counts
  let finalKeys := orderedKeys counts ++ sortKeys (keysOf counts2)
  String.join (finalKeys.map (renderEntry counts2))

/-! ## Seeded PRNG (`seededRandom`) -/

/-- One step of the FNV-1a-style seed fold:
`h ^= c; h = Math.imul(h, 16777619)` on a 32-bit pattern. -/
def fnv1aStep (h c : Nat) : Nat :=
  (h ^^^ c) * 16777619 % 4294967296

/-- The full seed fold, starting from `2166136261 >>> 0`. -/
def fnv1aFold (units : List Nat) : Nat :=
  units.foldl fnv1aStep 2166136261

/-- The initial closure state of `seededRandom(seed)`. -/
def seededRandom (seed : String) : Nat :=
  fnv1aFold (codeUnits seed)

/-- The xorshift32 state update of one draw:
`h ^= h << 13; h ^= h >>> 17; h ^= h << 5` on 32-bit patterns. -/
def xorshiftStep (h : Nat) : Nat :=
  let h1 := h ^^^ (h * 8192 % 4294967296)
  let h2 := h1 ^^^ (h1 / 131072)
  h2 ^^^ (h2 * 32 % 4294967296)

/-- The value returned by one draw after the state update:
`((h >>> 0) % 1_000_000) / 1_000_000`. -/
def drawValue (h : Nat) : ℚ :=
  ((xorshiftStep h % 1000000 : Nat) : ℚ) / 1000000

/-- The first `n` draws of the generator starting from closure state `h`:
each call updates the state by `xorshiftStep` and returns `drawValue`. -/
def drawsFrom (h : Nat) : Nat → List ℚ
  | 0 => []
  | n + 1 => drawValue h :: drawsFrom (xorshiftStep h) n

/-! ## Score deriver (`scoreFromSeed`), two textually identical copies -/

namespace ReactionSimulator

/-- `scoreFromSeed` of `ReactionSimulator.tsx`:
fold `seed + "|" + salt` with the FNV-1a-style hash, then `5 + (h >>> 0) % 91`. -/
def scoreFromSeed (seed salt : String) : Nat :=
  5 + fnv1aFold (codeUnits (seed ++ "|" ++ salt)) % 91

end ReactionSimulator

namespace SafetyApplicationsPanel

/-- `scoreFromSeed` of `SafetyApplicationsPanel.tsx` (same text as the
`ReactionSimulator.tsx` copy). -/
def scoreFromSeed (seed salt : String) : Nat :=
  5 + fnv1aFold (codeUnits (seed ++ "|" ++ salt)) % 91

end SafetyApplicationsPanel

/-! ## Reaction-time estimator (`estimateReactionTimeMinutes`) -/

/-- The solvent multiplier record of `estimateReactionTimeMinutes`. -/
def solventFactorTable : List (String × ℚ) :=
  [("water", 1.0), ("ethanol", 0.9), ("methanol", 0.85), ("isopropanol", 0.95),
   ("acetone", 0.8), ("acetonitrile", 0.75), ("dmso", 1.1), ("dmf", 1.15),
   ("thf", 0.9), ("dichloromethane", 0.7), ("chloroform", 0.8),
   ("benzene", 1.05), ("toluene", 1.0), ("xylene", 1.05), ("dioxane", 0.95),
   ("hexane", 1.1), ("heptane", 1.15), ("ether", 0.85)]

/-- `solventFactor[solventKey]` (`none` models `undefined`). -/
def solventFactor (solventKey : String) : Option ℚ :=
  (solventFactorTable.find? (fun p => p.1 = solventKey)).map (fun p => p.2)

/-- `Math.max(0.4, 1.6 - (temperatureK - 273) / 300)`. -/
def tempFactor (temperatureK : ℚ) : ℚ :=
  max 0.4 (1.6 - (temperatureK - 273) / 300)

/-- `Math.max(0.7, 1.2 - (pressureAtm - 1) * 0.05)`. -/
def pressureFactor (pressureAtm : ℚ) : ℚ :=
  max 0.7 (1.2 - (pressureAtm - 1) * 0.05)

/-- `Math.round` on a rational: round half toward positive infinity. -/
def jsRound (q : ℚ) : ℤ :=
  ⌊q + 1 / 2⌋

/-- `estimateReactionTimeMinutes` of the simulator helpers. -/
def estimateReactionTimeMinutes (reactantsCount solutesCount : ℕ)
    (solventKey : String) (temperatureK pressureAtm : ℚ) : ℤ :=
  let base0 : ℚ := 30 + reactantsCount * 20 + solutesCount * 10
  let base : ℚ := base0 * ((solventFactor solventKey).getD 1.0)
  max 5 (jsRound (base * tempFactor temperatureK * pressureFactor pressureAtm))

/-! ## Helper lemmas: the lexicographic comparator and sorting -/

theorem strData_inj {s t : String} (h : s.data = t.data) : s = t := by
  cases s; cases t; exact congrArg String.mk h

theorem charListLe_total : ∀ as bs : List Char,
    charListLe as bs = true ∨ charListLe bs as = true
  | [], _ => by left; rfl
  | _ :: _, [] => by right; rfl
  | a :: as, b :: bs => by
    rcases lt_trichotomy a b with h | h | h
    · left; simp [charListLe, h]
    · subst h
      rcases charListLe_total as bs with ih | ih
      · left; simp [charListLe, ih]
      · right; simp [charListLe, ih]
    · right; simp [charListLe, h]

theorem charListLe_antisymm : ∀ as bs : List Char,
    charListLe as bs = true → charListLe bs as = true → as = bs
  | [], [], _, _ => rfl
  | [], _ :: _, _, h2 => by simp [charListLe] at h2
  | _ :: _, [], h1, _ => by simp [charListLe] at h1
  | a :: as, b :: bs, h1, h2 => by
    rcases lt_trichotomy a b with h | h | h
    · simp [charListLe, h, asymm h] at h2
    · subst h
      simp only [charListLe, lt_irrefl, if_false] at h1 h2
      exact congrArg (a :: ·) (charListLe_antisymm as bs h1 h2)
    · simp [charListLe, h, asymm h] at h1

theorem charListLe_trans : ∀ as bs cs : List Char,
    charListLe as bs = true → charListLe bs cs = true → charListLe as cs = true
  | [], _, _, _, _ => rfl
  | _ :: _, [], _, h1, _ => by simp [charListLe] at h1
  | _ :: _, _ :: _, [], _, h2 => by simp [charListLe] at h2
  | a :: as, b :: bs, c :: cs, h1, h2 => by
    rcases lt_trichotomy a b with hab | hab | hab
    · rcases lt_trichotomy b c with hbc | hbc | hbc
      · simp [charListLe, lt_trans hab hbc]
      · subst hbc; simp [charListLe, hab]
      · simp [charListLe, hbc, asymm hbc] at h2
    · subst hab
      rcases lt_trichotomy a c with hac | hac | hac
      · simp [charListLe, hac]
      · subst hac
        simp only [charListLe, lt_irrefl, if_false] at h1 h2 ⊢
        exact charListLe_trans as bs cs h1 h2
      · simp [charListLe, hac, asymm hac] at h2
    · simp [charListLe, hab, asymm hab] at h1

instance : IsTotal String (fun a b => strLe a b = true) :=
  ⟨fun a b => charListLe_total a.data b.data⟩

instance : IsTrans String (fun a b => strLe a b = true) :=
  ⟨fun _ _ _ h1 h2 => charListLe_trans _ _ _ h1 h2⟩

instance : IsAntisymm String (fun a b => strLe a b = true) :=
  ⟨fun _ _ h1 h2 => strData_inj (charListLe_antisymm _ _ h1 h2)⟩

theorem sortKeys_perm (l : List String) : (sortKeys l).Perm l :=
  List.perm_insertionSort _ l

theorem sortKeys_sorted (l : List String) :
    List.Sorted (fun a b => strLe a b = true) (sortKeys l) :=
  List.sorted_insertionSort _ l

theorem sortKeys_eq_of_perm {l1 l2 : List String} (h : l1.Perm l2) :
    sortKeys l1 = sortKeys l2 :=
  List.eq_of_perm_of_sorted
    ((sortKeys_perm l1).trans (h.trans (sortKeys_perm l2).symm))
    (sortKeys_sorted l1) (sortKeys_sorted l2)

/-! ## Helper lemmas: the tally record -/

theorem any_key_iff (m : List (String × Nat)) (k : String) :
    m.any (fun p => p.1 = k) = true ↔ k ∈ keysOf m := by
  unfold keysOf
  rw [List.any_eq_true]
  constructor
  · rintro ⟨x, hx, hxk⟩
    simp only [decide_eq_true_eq] at hxk
    exact hxk ▸ List.mem_map_of_mem _ hx
  · intro hk
    rcases List.mem_map.mp hk with ⟨p, hp, hpk⟩
    exact ⟨p, hp, by simpa using hpk⟩

theorem lookupCount_bump_self (m : List (String × Nat)) (k : String) :
    lookupCount (bump m k) k = some ((lookupCount m k).getD 0 + 1) := by
  unfold bump
  by_cases h : m.any (fun p => p.1 = k) = true
  · rw [if_pos h]
    unfold lookupCount
    rw [List.find?_map]
    have hpf : ((fun p : String × Nat => decide (p.1 = k)) ∘
        (fun p : String × Nat => if p.1 = k then (p.1, p.2 + 1) else p)) =
        fun p : String × Nat => decide (p.1 = k) := by
      funext p
      by_cases hp : p.1 = k <;> simp [hp]
    rw [hpf]
    obtain ⟨q, hq⟩ : ∃ q, m.find? (fun p => decide (p.1 = k)) = some q := by
      have := (List.any_eq_true).mp h
      obtain ⟨x, hx, hxk⟩ := this
      rcases hfind : m.find? (fun p => decide (p.1 = k)) with _ | q
      · exact absurd (List.find?_eq_none.mp hfind x hx) (by simpa using hxk)
      · exact ⟨q, hfind⟩
    have hqk : q.1 = k := by simpa using List.find?_some hq
    rw [hq]
    simp [hqk]
  · rw [if_neg h]
    unfold lookupCount
    rw [List.find?_append]
    have hnone : m.find? (fun p => decide (p.1 = k)) = none := by
      rw [List.find?_eq_none]
      intro x hx
      simp only [decide_eq_true_eq]
      intro hxk
      exact h (List.any_eq_true.mpr ⟨x, hx, by simpa using hxk⟩)
    rw [hnone]
    simp

theorem lookupCount_bump_other (m : List (String × Nat)) (k k' : String)
    (hne : k' ≠ k) : lookupCount (bump m k) k' = lookupCount m k' := by
  unfold bump
  by_cases h : m.any (fun p => p.1 = k) = true
  · rw [if_pos h]
    unfold lookupCount
    rw [List.find?_map]
    have hpf : ((fun p : String × Nat => decide (p.1 = k')) ∘
        (fun p : String × Nat => if p.1 = k then (p.1, p.2 + 1) else p)) =
        fun p : String × Nat => decide (p.1 = k') := by
      funext p
      by_cases hp : p.1 = k <;> simp [hp]
    rw [hpf]
    rcases hfq : m.find? (fun p => decide (p.1 = k')) with _ | q
    · rw [hfq]; rfl
    · have hq' : q.1 = k' := by simpa using List.find?_some hfq
      have hqk : q.1 ≠ k := by rw [hq']; exact hne
      rw [hfq]
      simp [hqk]
  · rw [if_neg h]
    unfold lookupCount
    rw [List.find?_append]
    have hlast : List.find? (fun p : String × Nat => decide (p.1 = k')) [(k, 1)] = none := by
      simp [Ne.symm hne]
    rw [hlast, Option.or_none]

theorem keysOf_bump (m : List (String × Nat)) (k : String) :
    keysOf (bump m k) =
      if k ∈ keysOf m then keysOf m else keysOf m ++ [k] := by
  unfold bump
  by_cases h : m.any (fun p => p.1 = k) = true
  · rw [if_pos h, if_pos ((any_key_iff m k).mp h)]
    unfold keysOf
    rw [List.map_map]
    have : ((fun p : String × Nat => p.1) ∘
        (fun p : String × Nat => if p.1 = k then (p.1, p.2 + 1) else p)) =
        fun p : String × Nat => p.1 := by
      funext p
      by_cases hp : p.1 = k <;> simp [hp]
    rw [this]
  · rw [if_neg h, if_neg (fun hm => h ((any_key_iff m k).mpr hm))]
    unfold keysOf
    rw [List.map_append]
    rfl

theorem lookupCount_foldl : ∀ (l : List String) (m : List (String × Nat)) (k : String),
    lookupCount (l.foldl bump m) k =
      match lookupCount m k with
      | some n => some (n + l.count k)
      | none => if k ∈ l then some (l.count k) else none
  | [], m, k => by
    cases h : lookupCount m k <;> simp [h]
  | a :: l, m, k => by
    rw [List.foldl_cons]
    by_cases hk : k = a
    · subst hk
      rw [lookupCount_foldl l (bump m k) k, lookupCount_bump_self]
      cases h : lookupCount m k with
      | none => simp [h, List.count_cons_self, Nat.add_comm]
      | some n =>
        simp only [h, Option.getD_some, List.count_cons_self]
        congr 1
        omega
    · rw [lookupCount_foldl l (bump m a) k, lookupCount_bump_other m a k hk]
      cases h : lookupCount m k <;>
        simp [h, List.count_cons_of_ne hk, List.mem_cons, hk]

theorem lookupCount_tally (l : List String) (k : String) :
    lookupCount (tally l) k = if k ∈ l then some (l.count k) else none := by
  unfold tally
  rw [lookupCount_foldl]
  rfl

theorem mem_keysOf_foldl : ∀ (l : List String) (m : List (String × Nat)) (k : String),
    k ∈ keysOf (l.foldl bump m) ↔ k ∈ keysOf m ∨ k ∈ l
  | [], m, k => by simp
  | a :: l, m, k => by
    rw [List.foldl_cons, mem_keysOf_foldl l (bump m a) k, keysOf_bump]
    by_cases h : a ∈ keysOf m
    · rw [if_pos h]
      constructor
      · rintro (h1 | h2)
        · exact Or.inl h1
        · exact Or.inr (List.mem_cons_of_mem a h2)
      · rintro (h1 | h2)
        · exact Or.inl h1
        · rcases List.mem_cons.mp h2 with rfl | h3
          · exact Or.inl h
          · exact Or.inr h3
    · rw [if_neg h]
      simp only [List.mem_append, List.mem_singleton, List.mem_cons]
      tauto

theorem nodup_keysOf_foldl : ∀ (l : List String) (m : List (String × Nat)),
    (keysOf m).Nodup → (keysOf (l.foldl bump m)).Nodup
  | [], _, h => h
  | a :: l, m, h => by
    rw [List.foldl_cons]
    apply nodup_keysOf_foldl l (bump m a)
    rw [keysOf_bump]
    by_cases hm : a ∈ keysOf m
    · rwa [if_pos hm]
    · rw [if_neg hm]
      simp [List.nodup_append, h, hm]

theorem mem_keysOf_tally (l : List String) (k : String) :
    k ∈ keysOf (tally l) ↔ k ∈ l := by
  unfold tally
  rw [mem_keysOf_foldl]
  simp [keysOf]

theorem nodup_keysOf_tally (l : List String) : (keysOf (tally l)).Nodup :=
  nodup_keysOf_foldl l [] (by simp [keysOf])

theorem find?_filter_of_imp : ∀ (l : List (String × Nat)) (p q : String × Nat → Bool),
    (∀ x, p x = true → q x = true) →
    List.find? p (l.filter q) = List.find? p l
  | [], _, _, _ => rfl
  | x :: l, p, q, himp => by
    by_cases hq : q x = true
    · rw [List.filter_cons_of_pos hq]
      by_cases hp : p x = true
      · rw [List.find?_cons_of_pos _ hp, List.find?_cons_of_pos _ hp]
      · rw [List.find?_cons_of_neg _ hp, List.find?_cons_of_neg _ hp]
        exact find?_filter_of_imp l p q himp
    · rw [List.filter_cons_of_neg (by simpa using hq)]
      have hp : ¬p x = true := fun hpx => hq (himp x hpx)
      rw [List.find?_cons_of_neg _ hp]
      exact find?_filter_of_imp l p q himp

theorem lookupCount_deleteKey (m : List (String × Nat)) (k' k : String) :
    lookupCount (deleteKey m k') k = if k = k' then none else lookupCount m k := by
  unfold deleteKey lookupCount
  by_cases h : k = k'
  · subst h
    rw [if_pos rfl]
    have : List.find? (fun p : String × Nat => decide (p.1 = k))
        (m.filter fun p => p.1 ≠ k) = none := by
      rw [List.find?_eq_none]
      intro x hx
      have := List.of_mem_filter hx
      simpa using this
    rw [this]
    rfl
  · rw [if_neg h]
    rw [find?_filter_of_imp]
    intro x hp
    simp only [decide_eq_true_eq] at hp
    simp only [ne_eq, decide_eq_true_eq, decide_not, Bool.not_eq_true']
    rw [hp]
    simpa using h

theorem keysOf_deleteKey : ∀ (m : List (String × Nat)) (k : String),
    keysOf (deleteKey m k) = (keysOf m).filter (fun s => s ≠ k)
  | [], _ => rfl
  | p :: m, k => by
    unfold deleteKey keysOf
    by_cases hp : p.1 = k
    · rw [List.filter_cons_of_neg (by simpa using hp)]
      rw [List.map_cons, List.filter_cons_of_neg (by simpa using hp)]
      exact keysOf_deleteKey m k
    · rw [List.filter_cons_of_pos (by simpa using hp), List.map_cons,
        List.map_cons, List.filter_cons_of_pos (by simpa using hp)]
      exact congrArg (p.1 :: ·) (keysOf_deleteKey m k)

/-! ## Helper lemmas: congruence of the formatter under equal tallies -/

theorem lookupCount_postDelete_congr {m1 m2 : List (String × Nat)}
    (h : ∀ k, lookupCount m1 k = lookupCount m2 k) :
    ∀ k, lookupCount (postDelete m1) k = lookupCount (postDelete m2) k := by
  intro k
  simp only [postDelete]
  rw [h "C"]
  have h1 : ∀ k', lookupCount (deleteKey m1 "C") k' = lookupCount (deleteKey m2 "C") k' := by
    intro k'
    rw [lookupCount_deleteKey, lookupCount_deleteKey, h k']
  cases hc : truthy (lookupCount m2 "C") with
  | false => simp only [Bool.false_eq_true, if_false, Bool.false_and, h k]
  | true =>
    simp only [if_true, Bool.true_and]
    rw [h1 "H"]
    cases hh : truthy (lookupCount (deleteKey m2 "C") "H") with
    | false => simp only [Bool.false_eq_true, if_false, h1 k]
    | true =>
      simp only [if_true]
      rw [lookupCount_deleteKey (deleteKey m1 "C") "H" k,
        lookupCount_deleteKey (deleteKey m2 "C") "H" k, h1 k]

theorem keysOf_postDelete_perm {m1 m2 : List (String × Nat)}
    (h : ∀ k, lookupCount m1 k = lookupCount m2 k)
    (hk : (keysOf m1).Perm (keysOf m2)) :
    (keysOf (postDelete m1)).Perm (keysOf (postDelete m2)) := by
  simp only [postDelete]
  rw [h "C"]
  have h1 : ∀ k', lookupCount (deleteKey m1 "C") k' = lookupCount (deleteKey m2 "C") k' := by
    intro k'
    rw [lookupCount_deleteKey, lookupCount_deleteKey, h k']
  have hk1 : (keysOf (deleteKey m1 "C")).Perm (keysOf (deleteKey m2 "C")) := by
    rw [keysOf_deleteKey, keysOf_deleteKey]
    exact hk.filter _
  cases hc : truthy (lookupCount m2 "C") with
  | false => simpa only [Bool.false_eq_true, if_false, Bool.false_and] using hk
  | true =>
    simp only [if_true, Bool.true_and]
    rw [h1 "H"]
    cases hh : truthy (lookupCount (deleteKey m2 "C") "H") with
    | false => simpa only [Bool.false_eq_true, if_false] using hk1
    | true =>
      simp only [if_true]
      rw [keysOf_deleteKey (deleteKey m1 "C") "H", keysOf_deleteKey (deleteKey m2 "C") "H"]
      exact hk1.filter _

theorem orderedKeys_congr {m1 m2 : List (String × Nat)}
    (h : ∀ k, lookupCount m1 k = lookupCount m2 k) :
    orderedKeys m1 = orderedKeys m2 := by
  simp only [orderedKeys]
  rw [h "C"]
  have h1 : lookupCount (deleteKey m1 "C") "H" = lookupCount (deleteKey m2 "C") "H" := by
    rw [lookupCount_deleteKey, lookupCount_deleteKey, h "H"]
  cases hc : truthy (lookupCount m2 "C") with
  | false => rfl
  | true =>
    simp only [if_true, Bool.true_and]
    rw [h1]

theorem renderEntry_congr {m1 m2 : List (String × Nat)}
    (h : ∀ k, lookupCount m1 k = lookupCount m2 k) :
    renderEntry m1 = renderEntry m2 := by
  funext k
  unfold renderEntry
  rw [h k]

/-! ## Helper lemmas: tokenizer and PRNG -/

theorem scanTokens_of_no_upper : ∀ l : List Char,
    (∀ c ∈ l, isUpperAZ c = false) → scanTokens l = []
  | [], _ => rfl
  | [c], h => by
    have := h c (List.mem_singleton_self c)
    simp [scanTokens, this]
  | c1 :: c2 :: rest, h => by
    have h1 := h c1 (List.mem_cons_self _ _)
    have h2 : ∀ c ∈ c2 :: rest, isUpperAZ c = false :=
      fun c hc => h c (List.mem_cons_of_mem _ hc)
    have hC : ¬(c1 = 'C' ∧ c2 = 'l') := by
      rintro ⟨rfl, -⟩
      simp [isUpperAZ] at h1
    have hB : ¬(c1 = 'B' ∧ c2 = 'r') := by
      rintro ⟨rfl, -⟩
      simp [isUpperAZ] at h1
    have hU : ¬(isUpperAZ c1 = true ∧ isLowerAZ c2 = true) := by
      rintro ⟨hc, -⟩
      rw [h1] at hc
      exact Bool.false_ne_true hc
    have hU1 : ¬isUpperAZ c1 = true := by
      rw [h1]
      exact Bool.false_ne_true
    rw [show scanTokens (c1 :: c2 :: rest) =
        (if c1 = 'C' ∧ c2 = 'l' then String.mk [c1, c2] :: scanTokens rest
        else if c1 = 'B' ∧ c2 = 'r' then String.mk [c1, c2] :: scanTokens rest
        else if isUpperAZ c1 ∧ isLowerAZ c2 then String.mk [c1, c2] :: scanTokens rest
        else if isUpperAZ c1 then String.mk [c1] :: scanTokens (c2 :: rest)
        else scanTokens (c2 :: rest)) from rfl]
    rw [if_neg hC, if_neg hB, if_neg hU, if_neg hU1]
    exact scanTokens_of_no_upper (c2 :: rest) h2

theorem drawsFrom_eq_map : ∀ (n : Nat) (h : Nat),
    drawsFrom h n = (List.range n).map
      (fun i => ((xorshiftStep^[i + 1] h % 1000000 : Nat) : ℚ) / 1000000)
  | 0, _ => rfl
  | n + 1, h => by
    rw [show drawsFrom h (n + 1) = drawValue h :: drawsFrom (xorshiftStep h) n from rfl]
    rw [drawsFrom_eq_map n (xorshiftStep h), List.range_succ_eq_map]
    simp only [List.map_cons, List.map_map]
    refine congrArg₂ (· :: ·) ?_ ?_
    · simp [drawValue]
    · apply List.map_congr_left
      intro i _
      simp only [Function.comp_apply, Function.iterate_succ_apply]

/-! ## Claims -/

/-- C8: the output of `computeFormula` is invariant under permutation of its
input token sequence: for every token sequence and every reordering of it,
`computeFormula` returns the identical string. -/
theorem computeFormula_perm_invariant {l1 l2 : List String} (h : l1.Perm l2) :
    computeFormula l1 = computeFormula l2 := by
  have hlk : ∀ k, lookupCount (tally l1) k = lookupCount (tally l2) k := by
    intro k
    rw [lookupCount_tally, lookupCount_tally, h.count_eq]
    by_cases hm : k ∈ l2
    · rw [if_pos (h.mem_iff.mpr hm), if_pos hm]
    · rw [if_neg (fun hc => hm (h.mem_iff.mp hc)), if_neg hm]
  have hkeys : (keysOf (tally l1)).Perm (keysOf (tally l2)) :=
    (List.perm_ext_iff_of_nodup (nodup_keysOf_tally l1) (nodup_keysOf_tally l2)).mpr
      (fun k => by rw [mem_keysOf_tally, mem_keysOf_tally]; exact h.mem_iff)
  have hemp : l1.isEmpty = l2.isEmpty := by
    have hlen := h.length_eq
    cases l1 <;> cases l2 <;> simp_all
  simp only [computeFormula]
  rw [hemp]
  cases he : l2.isEmpty with
  | true => rfl
  | false =>
    simp only [Bool.false_eq_true, if_false]
    rw [orderedKeys_congr hlk,
      sortKeys_eq_of_perm (keysOf_postDelete_perm hlk hkeys),
      renderEntry_congr (lookupCount_postDelete_congr hlk)]

/-- Witness for C8 at a concrete permutation. -/
theorem computeFormula_perm_invariant_witness :
    computeFormula ["Na", "Cl"] = computeFormula ["Cl", "Na"] :=
  computeFormula_perm_invariant (by decide)

/-- C1 (evaluation at the spec's examples): the code renders `"CHO"` for the
ethanol token list — the counts of `C` and `H` are deleted from the record
before rendering, so `undefined > 1` is false and the digits are dropped;
the carbon-free examples agree with the spec. -/
theorem computeFormula_eval_examples :
    computeFormula ["C", "C", "O", "H", "H", "H", "H", "H", "H"] = "CHO" ∧
    computeFormula ["O"] = "O" ∧
    computeFormula [] = "" ∧
    computeFormula ["Na", "Cl"] = "ClNa" := by
  refine ⟨by decide, by decide, by decide, by decide⟩

/-- C2 counterexample: at `temperatureK = 573` the temperature factor is
`0.6`, strictly above its floor `0.4`, and at `pressureAtm = 10` the
pressure factor is `0.75`, strictly above its floor `0.7` — neither clamp
triggers at these inputs. -/
theorem estimator_clamps_not_triggered_at_573_10 :
    tempFactor 573 = 0.6 ∧ pressureFactor 10 = 0.75 ∧
    (0.4 : ℚ) < tempFactor 573 ∧ (0.7 : ℚ) < pressureFactor 10 := by
  refine ⟨by norm_num [tempFactor], by norm_num [pressureFactor],
    by norm_num [tempFactor], by norm_num [pressureFactor]⟩

/-- C2 amended: at `temperatureK = 573` the temperature factor stays
strictly above its floor `0.4`, and at `pressureAtm = 10` the pressure
factor stays strictly above its floor `0.7` — neither clamp triggers at the
claimed inputs; the clamps do trigger at clearly extreme inputs such as
`temperatureK = 700` (factor `0.4`) and `pressureAtm = 15` (factor `0.7`),
where the unclamped expression sits well below the floor. -/
theorem estimator_factors_above_floors :
    (0.4 : ℚ) < tempFactor 573 ∧ (0.7 : ℚ) < pressureFactor 10 ∧
    tempFactor 700 = 0.4 ∧ pressureFactor 15 = 0.7 := by
  refine ⟨by norm_num [tempFactor], by norm_num [pressureFactor],
    by norm_num [tempFactor], by norm_num [pressureFactor]⟩

/-- C3: the estimator boundary case `estimate(1, 0, "water", 298, 1) = 91`,
with base `50`, water solvent factor `1`, temperature factor
`max 0.4 (1.6 - 25/300)` and pressure factor `max 0.7 1.2`. -/
theorem estimateReactionTimeMinutes_boundary :
    estimateReactionTimeMinutes 1 0 "water" 298 1 = 91 ∧
    (30 + 1 * 20 + 0 * 10 : ℚ) = 50 ∧
    solventFactor "water" = some 1 ∧
    tempFactor 298 = max 0.4 (1.6 - 25 / 300) ∧
    pressureFactor 1 = max 0.7 1.2 := by
  refine ⟨?_, by norm_num, ?_, by norm_num [tempFactor], by norm_num [pressureFactor]⟩
  · norm_num [estimateReactionTimeMinutes, solventFactor, solventFactorTable,
      tempFactor, pressureFactor, jsRound, List.find?]
  · norm_num [solventFactor, solventFactorTable, List.find?]

/-- C4: the tokenizer prefers the two-letter halogens `Cl` and `Br` at the
head of the scan over splitting them, and the spec's concrete examples
hold. -/
theorem parseElementsFromSmiles_halogen_priority :
    (∀ l : List Char, scanTokens ('C' :: 'l' :: l) = "Cl" :: scanTokens l) ∧
    (∀ l : List Char, scanTokens ('B' :: 'r' :: l) = "Br" :: scanTokens l) ∧
    parseElementsFromSmiles "ClCCl" = ["Cl", "C", "Cl"] ∧
    parseElementsFromSmiles "CCO" = ["C", "C", "O"] ∧
    parseElementsFromSmiles "Br" = ["Br"] := by
  refine ⟨fun l => ?_, fun l => ?_, by decide, by decide, by decide⟩
  · simp [scanTokens]
  · simp [scanTokens]

/-- C5: every score is an integer between 5 and 95, and the two textually
identical copies of `scoreFromSeed` agree on every input, so identical
`(seed, salt)` inputs always yield the identical score. -/
theorem scoreFromSeed_range_deterministic :
    ∀ seed salt : String,
      5 ≤ ReactionSimulator.scoreFromSeed seed salt ∧
      ReactionSimulator.scoreFromSeed seed salt ≤ 95 ∧
      ReactionSimulator.scoreFromSeed seed salt =
        SafetyApplicationsPanel.scoreFromSeed seed salt := by
  intro seed salt
  unfold ReactionSimulator.scoreFromSeed SafetyApplicationsPanel.scoreFromSeed
  refine ⟨Nat.le_add_right 5 _, ?_, rfl⟩
  have hm : fnv1aFold (codeUnits (seed ++ "|" ++ salt)) % 91 < 91 :=
    Nat.mod_lt _ (by norm_num)
  omega

/-- C6: the sequence of draws is a function of the seed string alone — two
generators built from equal seed strings produce identical draw sequences
of any length. -/
theorem seededRandom_deterministic :
    ∀ (s1 s2 : String) (n : Nat), s1 = s2 →
      drawsFrom (seededRandom s1) n = drawsFrom (seededRandom s2) n := by
  intro s1 s2 n h
  rw [h]

/-- Witness for C6: the first 1000 draws from two generators seeded with
`"CCO"` coincide. -/
theorem seededRandom_deterministic_witness :
    drawsFrom (seededRandom "CCO") 1000 = drawsFrom (seededRandom "CCO") 1000 :=
  seededRandom_deterministic "CCO" "CCO" 1000 rfl

/-- C7: the `i`-th draw is `(state % 1000000) / 1000000` where the state is
the `(i+1)`-fold xorshift32 iterate of the seeded initial state, and every
draw lies in `[0, 1)`. -/
theorem seededRandom_draw_structure :
    ∀ (seed : String) (n : Nat),
      drawsFrom (seededRandom seed) n = (List.range n).map
        (fun i => ((xorshiftStep^[i + 1] (seededRandom seed) % 1000000 : Nat) : ℚ) / 1000000) ∧
      ∀ q ∈ drawsFrom (seededRandom seed) n, 0 ≤ q ∧ q < 1 := by
  intro seed n
  refine ⟨drawsFrom_eq_map n _, ?_⟩
  intro q hq
  rw [drawsFrom_eq_map n _] at hq
  rcases List.mem_map.mp hq with ⟨i, -, rfl⟩
  constructor
  · exact div_nonneg (Nat.cast_nonneg _) (by norm_num)
  · rw [div_lt_one (by norm_num)]
    exact_mod_cast Nat.mod_lt _ (by norm_num)

/-- Witness for C7: the single draw of a length-1 run from seed `"CCO"` is
in `[0, 1)`. -/
theorem seededRandom_draw_structure_witness :
    0 ≤ drawValue (seededRandom "CCO") ∧ drawValue (seededRandom "CCO") < 1 :=
  (seededRandom_draw_structure "CCO" 1).2 (drawValue (seededRandom "CCO"))
    (by rw [show drawsFrom (seededRandom "CCO") 1 = [drawValue (seededRandom "CCO")] from rfl]
        exact List.mem_singleton_self _)

/-- C9: the tokenizer is total — it is a plain function on all strings; the
empty string and strings with only unrecognized characters (no ASCII
uppercase letter, e.g. `"123()="`) yield the empty token sequence. -/
theorem parseElementsFromSmiles_total :
    parseElementsFromSmiles "" = [] ∧
    parseElementsFromSmiles "123()=" = [] ∧
    ∀ s : String, (∀ c ∈ s.data, isUpperAZ c = false) → parseElementsFromSmiles s = [] :=
  ⟨by decide, by decide, fun s h => scanTokens_of_no_upper s.data h⟩

/-- Witness for C9 at the all-unrecognized input `"123()="`. -/
theorem parseElementsFromSmiles_total_witness :
    parseElementsFromSmiles "123()=" = [] :=
  parseElementsFromSmiles_total.2.2 "123()=" (by decide)

/-- C10: the score depends only on the concatenation `seed ++ "|" ++ salt`,
so shifting a `"|"`-separated chunk between seed and salt never changes the
score. -/
theorem scoreFromSeed_concat_collision :
    ∀ a b c : String,
      ReactionSimulator.scoreFromSeed a (b ++ "|" ++ c) =
      ReactionSimulator.scoreFromSeed (a ++ "|" ++ b) c := by
  intro a b c
  unfold ReactionSimulator.scoreFromSeed
  have hs : a ++ "|" ++ (b ++ "|" ++ c) = a ++ "|" ++ b ++ "|" ++ c := by
    apply strData_inj
    simp [String.data_append]
  rw [hs]

